import Mathlib

/-!
Verification of the quadlet document model of the quadly backend
(src/backend/src): the quadlet text-format parser and serializer
(src/backend/src/core/parser.rs), the semantic validator
(src/backend/src/core/validator.rs), the type registry
(src/backend/src/models/quadlet_type.rs) and the status reconciler
(src/backend/src/system/systemd.rs).

Conventions of the embedding:
* A Rust `HashMap` is modelled as an association list whose keys are unique;
  the list order stands for one of the unspecified iteration orders of the
  `HashMap`.
* The asynchronous D-Bus pipeline of `get_status` (connection, manager proxy,
  `get_unit`, unit proxy, `ActiveState` property) is modelled as one oracle
  `query : String -> Except epsilon String`: `query u` is the raw activation
  state of unit `u`, or an error if any step of the pipeline fails.
* The filesystem directory scanned by `discover_quadlets` is modelled as the
  list of names of its regular files, in the order the directory iterator
  yields them.
* The pest grammar file `src/backend/src/core/quadlet.pest` is not part of
  the sources; the line-level tokenization is modelled from the wording of
  the specification (see the doc comments marked "Modelled from the spec").
  Everything past tokenization (value trimming, duplicate-key merging,
  section re-use) follows `parser.rs` itself.
-/

namespace Quadly

/-- Status of the systemd unit backing a quadlet
(`QuadletStatus`, src/backend/src/models/quadlet.rs lines 8-15). -/
inductive QuadletStatus where
  | Active
  | Inactive
  | Failed
  | Activating
  | Deactivating
  | Unknown
deriving DecidableEq

/-- Supported quadlet file kinds
(`QuadletType`, src/backend/src/models/quadlet_type.rs lines 8-16). -/
inductive QuadletType where
  | Container
  | Network
  | Volume
  | Kube
  | Pod
  | Image
deriving DecidableEq

/-- File extension associated with a quadlet kind; note the leading dot
(`QuadletType::extension`, src/backend/src/models/quadlet_type.rs lines 19-29). -/
def QuadletType.extension : QuadletType → String
  | QuadletType.Container => ".container"
  | QuadletType.Network => ".network"
  | QuadletType.Pod => ".pod"
  | QuadletType.Image => ".image"
  | QuadletType.Volume => ".volume"
  | QuadletType.Kube => ".kube"

/-- Kind recognized from a file extension; the match arms expect the leading
dot (`QuadletType::from_extension`, src/backend/src/models/quadlet_type.rs
lines 31-41). -/
def QuadletType.from_extension (ext : String) : Option QuadletType :=
  if ext = ".container" then some QuadletType.Container
  else if ext = ".network" then some QuadletType.Network
  else if ext = ".pod" then some QuadletType.Pod
  else if ext = ".image" then some QuadletType.Image
  else if ext = ".volume" then some QuadletType.Volume
  else if ext = ".kube" then some QuadletType.Kube
  else none

/-- Lowercase name of a quadlet kind, without dot
(`QuadletType::as_str`, src/backend/src/models/quadlet_type.rs lines 43-52). -/
def QuadletType.as_str : QuadletType → String
  | QuadletType.Container => "container"
  | QuadletType.Network => "network"
  | QuadletType.Pod => "pod"
  | QuadletType.Image => "image"
  | QuadletType.Volume => "volume"
  | QuadletType.Kube => "kube"

/-- Parsed quadlet file: section name to (key to merged value), as built by
`parse_quadlet` into `HashMap<String, HashMap<String, String>>`
(src/backend/src/core/parser.rs line 11).  The association list keeps keys
unique; its order is one iteration order of the hash maps. -/
abbrev Document := List (String × List (String × String))

/-- The Unicode White_Space property, the character class stripped by Rust
`char::is_whitespace` and hence by `str::trim`: U+0009 to U+000D, U+0020,
U+0085, U+00A0, U+1680, U+2000 to U+200A, U+2028, U+2029, U+202F, U+205F
and U+3000. -/
def isRustWhitespace (c : Char) : Bool :=
  c.toNat == 0x09 || c.toNat == 0x0A || c.toNat == 0x0B || c.toNat == 0x0C ||
  c.toNat == 0x0D || c.toNat == 0x20 || c.toNat == 0x85 || c.toNat == 0xA0 ||
  c.toNat == 0x1680 || (decide (0x2000 ≤ c.toNat) && decide (c.toNat ≤ 0x200A)) ||
  c.toNat == 0x2028 || c.toNat == 0x2029 || c.toNat == 0x202F || c.toNat == 0x205F ||
  c.toNat == 0x3000

/-- Drop leading whitespace characters, as Rust `str::trim` does on the left. -/
def trimLeftChars : List Char → List Char
  | [] => []
  | c :: rest => if isRustWhitespace c then trimLeftChars rest else c :: rest

/-- Drop leading and trailing whitespace: the `value.trim()` call of
`parse_quadlet` (src/backend/src/core/parser.rs line 31). -/
def trimChars (cs : List Char) : List Char :=
  (trimLeftChars ((trimLeftChars cs).reverse)).reverse

/-- Split a character list at every newline; a trailing newline yields a final
empty line, as in pest line-oriented scanning. -/
def splitLines : List Char → List (List Char)
  | [] => [[]]
  | c :: rest =>
    if c = '\n' then [] :: splitLines rest
    else (c :: (splitLines rest).headD []) :: (splitLines rest).tail

/-- Split at the first occurrence of the equals sign: `key=value` becomes
`(key, value)`; `none` when the line has no equals sign.  The key therefore
never contains an equals sign and the value is the raw remainder of the
line, as the grammar of section 4.1 of the specification prescribes. -/
def splitFirstEq : List Char → Option (List Char × List Char)
  | [] => none
  | c :: rest =>
    if c = '=' then some ([], rest)
    else
      match splitFirstEq rest with
      | none => none
      | some kv => some (c :: kv.1, kv.2)

/-- Modelled from the spec: the section-header rule of the missing grammar
file `src/backend/src/core/quadlet.pest`.  Given the characters after the
opening bracket of a header line, return the section name when the rest is
exactly that name followed by a closing bracket, the name being "any
non-bracket, non-newline text"; otherwise the header is malformed. -/
def extractName : List Char → Option (List Char)
  | [] => none
  | c :: rest =>
    if c = ']' ∧ rest = [] then some []
    else if c = '[' ∨ c = ']' then none
    else (extractName rest).map (fun n => c :: n)

/-- Token kinds of one line of a quadlet file. -/
inductive LineTok where
  | blankLine
  | headerLine (name : List Char)
  | badHeaderLine
  | pairLine (key value : List Char)
  | plainLine
deriving DecidableEq

/-- Modelled from the spec: line classification of the missing grammar file
`src/backend/src/core/quadlet.pest`, following section 4.1 of the
specification: blank lines are ignored; a line starting with an opening
bracket is a section header (malformed headers are parse errors); a line
containing an equals sign is a `key=value` pair; anything else is plain
text (ignored before the first section, a parse error inside one). -/
def classifyLine (line : List Char) : LineTok :=
  if trimChars line = [] then LineTok.blankLine
  else if line.headD ' ' = '[' then
    match extractName line.tail with
    | some n => LineTok.headerLine n
    | none => LineTok.badHeaderLine
  else
    match splitFirstEq line with
    | some kv => LineTok.pairLine kv.1 kv.2
    | none => LineTok.plainLine

/-- Duplicate-key handling of `parse_quadlet`
(src/backend/src/core/parser.rs lines 33-39):
`section_map.entry(key).and_modify(|old| { if !old.is_empty()
{ old.push_str(", "); } old.push_str(&value); }).or_insert(value)`. -/
def insertPair : List (String × String) → String → String → List (String × String)
  | [], k, v => [(k, v)]
  | (k0, v0) :: rest, k, v =>
    if k0 = k then (k0, if v0 = "" then v else v0 ++ ", " ++ v) :: rest
    else (k0, v0) :: insertPair rest k v

/-- The `data.entry(section_name).or_default()` step of `parse_quadlet`
(src/backend/src/core/parser.rs line 25): make sure the section exists,
keeping its pairs if it already does. -/
def touchSection : Document → String → Document
  | [], sec => [(sec, [])]
  | (s, m) :: rest, sec =>
    if s = sec then (s, m) :: rest
    else (s, m) :: touchSection rest sec

/-- Insert one key-value pair into the named section of the document, with the
duplicate-key merge of `insertPair`. -/
def insertPairIntoDoc : Document → String → String → String → Document
  | [], sec, k, v => [(sec, [(k, v)])]
  | (s, m) :: rest, sec, k, v =>
    if s = sec then (s, insertPair m k v) :: rest
    else (s, m) :: insertPairIntoDoc rest sec k v

/-- Line-by-line processing loop of `parse_quadlet`
(src/backend/src/core/parser.rs lines 17-45), over the token stream of the
spec-modelled grammar: headers open (or re-open) a section, pair lines are
inserted with value trimming and duplicate merging, blank lines and
leading garbage are skipped, malformed headers and pair-less lines inside
a section are syntax errors. -/
def parseLines : List (List Char) → Document → Option String → Except String Document
  | [], doc, _ => Except.ok doc
  | line :: rest, doc, cur =>
    match classifyLine line with
    | LineTok.blankLine => parseLines rest doc cur
    | LineTok.headerLine n =>
      parseLines rest (touchSection doc (String.mk n)) (some (String.mk n))
    | LineTok.badHeaderLine => Except.error "Error de sintaxis: cabecera de seccion no valida"
    | LineTok.pairLine k v =>
      match cur with
      | some sec =>
        parseLines rest (insertPairIntoDoc doc sec (String.mk k) (String.mk (trimChars v))) cur
      | none => parseLines rest doc cur
    | LineTok.plainLine =>
      match cur with
      | some _ => Except.error "Error de sintaxis: se esperaba clave=valor"
      | none => parseLines rest doc cur

/-- Parser of the quadlet text format (`parse_quadlet`,
src/backend/src/core/parser.rs lines 11-47).  Modelled from the spec where
the grammar file is missing: the tokenization is `classifyLine` over
`splitLines`, and empty input is an error ("Archivo vacio o invalido",
section 4.1: empty input yields the error "empty or invalid file").  The
per-pair trimming and duplicate-key merging follow parser.rs itself. -/
def parse_quadlet (content : String) : Except String Document :=
  if content = "" then Except.error "Archivo vacio o invalido"
  else parseLines (splitLines content.data) [] none

/-- Split a character list at every non-overlapping occurrence of the
two-character separator comma-space, scanning left to right: the behavior
of Rust `value.split(", ")` used by `serialize_quadlet`
(src/backend/src/core/parser.rs line 57). -/
def splitCommaSpace : List Char → List (List Char)
  | [] => [[]]
  | [c] => [[c]]
  | c :: d :: rest =>
    if c = ',' ∧ d = ' ' then [] :: splitCommaSpace rest
    else (c :: (splitCommaSpace (d :: rest)).headD []) :: (splitCommaSpace (d :: rest)).tail

/-- Whether the comma-space separator occurs in a character list. -/
def hasCommaSpace : List Char → Bool
  | c :: d :: rest => (c == ',' && d == ' ') || hasCommaSpace (d :: rest)
  | _ => false

/-- Lines emitted by `serialize_quadlet` for one key: one `key=piece` line per
comma-space separated piece of the merged value
(src/backend/src/core/parser.rs lines 55-59). -/
def pairLines (key value : String) : List (List Char) :=
  (splitCommaSpace value.data).map (fun piece => key.data ++ '=' :: piece)

/-- Lines emitted by `serialize_quadlet` for one section: the bracketed
header, the pair lines, and the terminating blank line
(src/backend/src/core/parser.rs lines 53-61). -/
def sectionLines (name : String) (pairs : List (String × String)) : List (List Char) :=
  ('[' :: name.data ++ [']']) :: ((pairs.map (fun kv => pairLines kv.1 kv.2)).flatten ++ [[]])

/-- All lines emitted by `serialize_quadlet` for a document, in map order. -/
def docLines (d : Document) : List (List Char) :=
  (d.map (fun sm => sectionLines sm.1 sm.2)).flatten

/-- Serializer of the quadlet text format (`serialize_quadlet`,
src/backend/src/core/parser.rs lines 50-63): every emitted line followed
by a newline, concatenated. -/
def serialize_quadlet (d : Document) : String :=
  String.mk (((docLines d).map (fun l => l ++ ['\n'])).flatten)

/-- One validation finding (`ValidationError`,
src/backend/src/core/validator.rs lines 7-10). -/
structure ValidationError where
  field : String
  message : String
deriving DecidableEq

/-- Rule set of `SemanticValidator::validate`
(src/backend/src/core/validator.rs lines 15-46).  `HashMap::get` and
`contains_key` are modelled by association-list lookup.  The message texts
carry no surrounding quote marks around key names. -/
def SemanticValidator.validate (parsed_data : Document) : List ValidationError :=
  match List.lookup "Container" parsed_data with
  | some container_section =>
    (if (List.lookup "Image" container_section).isSome then []
     else [{ field := "Container.Image",
             message := "La clave Image es obligatoria para definir un contenedor." }]) ++
    (match List.lookup "ContainerName" container_section with
     | some name =>
       if name.data.any (fun c => c = ' ') then
         [{ field := "Container.ContainerName",
            message := "El nombre del contenedor no puede contener espacios." }]
       else []
     | none => [])
  | none =>
    [{ field := "Global",
       message := "No se encontro la seccion obligatoria [Container]." }]

/-- Raw activation-state mapping of `get_status`
(src/backend/src/system/systemd.rs lines 76-81). -/
def mapActiveState (state : String) : QuadletStatus :=
  if state = "active" ∨ state = "reloading" ∨ state = "activating" then QuadletStatus.Active
  else if state = "inactive" ∨ state = "deactivating" then QuadletStatus.Inactive
  else if state = "failed" then QuadletStatus.Failed
  else QuadletStatus.Unknown

/-- Status reconciliation for one quadlet (`get_status`,
src/backend/src/system/systemd.rs lines 55-87): append the fixed
".service" suffix, run the D-Bus pipeline (the oracle `query`), map the
raw state, and turn any pipeline error into `Inactive`
(`result.unwrap_or(QuadletStatus::Inactive)`). -/
def get_status {ε : Type} (query : String → Except ε String) (name : String) : QuadletStatus :=
  match query (name ++ ".service") with
  | Except.ok state => mapActiveState state
  | Except.error _ => QuadletStatus.Inactive

/-- Discovery result row (`QuadletInfo`, src/backend/src/models/quadlet.rs,
as constructed in src/backend/src/system/systemd.rs lines 169-173). -/
structure QuadletInfo where
  name : String
  kind : QuadletType
  status : Option QuadletStatus
deriving DecidableEq

/-- Extension candidates probed by `discover_quadlets`, in source order
(src/backend/src/system/systemd.rs line 151). -/
def quadletExtensions : List String := ["container", "network", "volume", "kube", "pod", "image"]

/-- Iteration step of Rust `str::trim_end_matches`: as long as the pattern is
a suffix, drop it.  The fuel starts at the length of the string, which
bounds the number of removals. -/
def stripSuffixGo (pat : List Char) : Nat → List Char → List Char
  | 0, cs => cs
  | fuel + 1, cs =>
    if pat ≠ [] ∧ pat.isSuffixOf cs then
      stripSuffixGo pat fuel (cs.take (cs.length - pat.length))
    else cs

/-- Rust `file_name.trim_end_matches(&format!(".{}", ext))` used to compute
the quadlet name (src/backend/src/system/systemd.rs line 154): repeatedly
remove the trailing pattern. -/
def stripSuffixAll (pat cs : List Char) : List Char :=
  stripSuffixGo pat cs.length cs

/-- Extension-probing loop of `discover_quadlets` for one file
(src/backend/src/system/systemd.rs lines 151-176): the first extension the
file name ends with is stripped to obtain the name, then
`QuadletType::from_extension(ext)` is consulted with the extension token
exactly as it appears in the probe list (without a leading dot); on a
match one `QuadletInfo` is produced, container files getting a live
`get_status` query and every other kind `Unknown`; without a match the
remaining extensions are probed. -/
def discoverScan {ε : Type} (query : String → Except ε String) (file_name : String) :
    List String → Option QuadletInfo
  | [] => none
  | ext :: rest =>
    if ("." ++ ext).data.isSuffixOf file_name.data then
      match QuadletType.from_extension ext with
      | some qt =>
        some { name := String.mk (stripSuffixAll ("." ++ ext).data file_name.data),
               kind := qt,
               status := some (if ext = "container" then
                 get_status query (String.mk (stripSuffixAll ("." ++ ext).data file_name.data))
                 else QuadletStatus.Unknown) }
      | none => discoverScan query file_name rest
    else discoverScan query file_name rest

/-- Bulk discovery (`discover_quadlets`,
src/backend/src/system/systemd.rs lines 137-184) over the regular files of
the quadlet directory, modelled as the list of their names: each file
contributes at most one `QuadletInfo` via `discoverScan`. -/
def discover_quadlets {ε : Type} (query : String → Except ε String)
    (files : List String) : List QuadletInfo :=
  files.filterMap (fun f => discoverScan query f quadletExtensions)

/-- Well-formed section name for the round-trip law: no newline and no
bracket, so that the serialized header line re-parses as the same name. -/
def wfSectionName (s : String) : Prop :=
  ∀ c ∈ s.data, c ≠ '\n' ∧ c ≠ '[' ∧ c ≠ ']'

/-- Well-formed key for the round-trip law: no newline, no equals sign, and
not starting with an opening bracket, so that the serialized pair line
re-parses as the same key. -/
def wfKeyName (s : String) : Prop :=
  (∀ c ∈ s.data, c ≠ '\n' ∧ c ≠ '=') ∧ s.data.headD '=' ≠ '['

/-- Well-formed value for the round-trip law: no newline, free of the
comma-space separator, and invariant under trimming (the parser trims
every value). -/
def wfValue (v : String) : Prop :=
  (∀ c ∈ v.data, c ≠ '\n') ∧ trimChars v.data = v.data ∧ hasCommaSpace v.data = false

/-- Well-formed document for the round-trip law: at least one section, unique
section names, unique keys per section, and well-formed names, keys and
values throughout. -/
def wfDocument (d : Document) : Prop :=
  d ≠ [] ∧ (d.map Prod.fst).Nodup ∧
    ∀ sm ∈ d, wfSectionName sm.1 ∧ (sm.2.map Prod.fst).Nodup ∧
      ∀ kv ∈ sm.2, wfKeyName kv.1 ∧ wfValue kv.2

/-- Input text consisting of one section header followed by one `key=value`
line per given value: the shape of input quoted by the duplicate-key
claim. -/
def repeatedKeyText (sec k : String) (vs : List String) : String :=
  String.mk (((('[' :: sec.data ++ [']']) :: vs.map (fun v => k.data ++ '=' :: v.data)).map
    (fun l => l ++ ['\n'])).flatten)

instance (s : String) : Decidable (wfSectionName s) := by
  unfold wfSectionName; infer_instance

instance (s : String) : Decidable (wfKeyName s) := by
  unfold wfKeyName; infer_instance

instance (v : String) : Decidable (wfValue v) := by
  unfold wfValue; infer_instance

instance (d : Document) : Decidable (wfDocument d) := by
  unfold wfDocument; infer_instance

theorem mk_data (s : String) : String.mk s.data = s := by
  cases s
  rfl

theorem ne_empty_of_data_ne_nil {s : String} (h : s.data ≠ []) : s ≠ "" := by
  intro he
  exact h (by rw [he])

theorem mem_trimLeftChars {c : Char} (hc : isRustWhitespace c = false) :
    ∀ {cs : List Char}, c ∈ cs → c ∈ trimLeftChars cs := by
  intro cs hmem
  induction cs with
  | nil => cases hmem
  | cons d rest ih =>
    rw [trimLeftChars]
    rcases List.mem_cons.mp hmem with h | h
    · subst h
      rw [if_neg (by simp [hc])]
      exact List.mem_cons_self _ _
    · by_cases hd : isRustWhitespace d
      · rw [if_pos hd]; exact ih h
      · rw [if_neg hd]; exact List.mem_cons_of_mem _ h

theorem trimChars_ne_nil {c : Char} {cs : List Char} (hmem : c ∈ cs)
    (hc : isRustWhitespace c = false) : trimChars cs ≠ [] := by
  have h1 : c ∈ trimLeftChars cs := mem_trimLeftChars hc hmem
  have h2 : c ∈ (trimLeftChars cs).reverse := List.mem_reverse.mpr h1
  have h3 : c ∈ trimLeftChars ((trimLeftChars cs).reverse) := mem_trimLeftChars hc h2
  have h4 : c ∈ trimChars cs := List.mem_reverse.mpr h3
  exact List.ne_nil_of_mem h4

theorem splitLines_append {a : List Char} (ha : ∀ c ∈ a, c ≠ '\n') (b : List Char) :
    splitLines (a ++ '\n' :: b) = a :: splitLines b := by
  induction a with
  | nil => simp [splitLines]
  | cons c a ih =>
    have hc : c ≠ '\n' := ha c (List.mem_cons_self _ _)
    have ih2 := ih (fun x hx => ha x (List.mem_cons_of_mem _ hx))
    rw [List.cons_append, splitLines, if_neg hc, ih2]
    simp

theorem splitLines_join (ls : List (List Char)) (h : ∀ l ∈ ls, ∀ c ∈ l, c ≠ '\n') :
    splitLines ((ls.map (fun l => l ++ ['\n'])).flatten) = ls ++ [[]] := by
  induction ls with
  | nil => simp [splitLines]
  | cons l ls ih =>
    have hl : ∀ c ∈ l, c ≠ '\n' := h l (List.mem_cons_self _ _)
    have ih2 := ih (fun x hx => h x (List.mem_cons_of_mem _ hx))
    rw [List.map_cons, List.flatten_cons, List.append_assoc, List.singleton_append,
      splitLines_append hl, ih2, List.cons_append]

theorem splitFirstEq_append {k : List Char} (hk : ∀ c ∈ k, c ≠ '=') (v : List Char) :
    splitFirstEq (k ++ '=' :: v) = some (k, v) := by
  induction k with
  | nil => simp [splitFirstEq]
  | cons c k ih =>
    have hc : c ≠ '=' := hk c (List.mem_cons_self _ _)
    have ih2 := ih (fun x hx => hk x (List.mem_cons_of_mem _ hx))
    rw [List.cons_append, splitFirstEq, if_neg hc, ih2]

theorem extractName_append {n : List Char} (hn : ∀ c ∈ n, c ≠ '[' ∧ c ≠ ']') :
    extractName (n ++ [']']) = some n := by
  induction n with
  | nil => simp [extractName]
  | cons c n ih =>
    have hc := hn c (List.mem_cons_self _ _)
    have ih2 := ih (fun x hx => hn x (List.mem_cons_of_mem _ hx))
    rw [List.cons_append, extractName, if_neg (by simp [hc.2]),
      if_neg (by simp [hc.1, hc.2]), ih2]
    rfl

theorem classifyLine_nil : classifyLine [] = LineTok.blankLine := rfl

theorem classifyLine_header {n : List Char} (hn : ∀ c ∈ n, c ≠ '\n' ∧ c ≠ '[' ∧ c ≠ ']') :
    classifyLine ('[' :: n ++ [']']) = LineTok.headerLine n := by
  have hne : trimChars ('[' :: n ++ [']']) ≠ [] :=
    trimChars_ne_nil (List.mem_cons_self _ _) (by decide)
  rw [classifyLine, if_neg hne, if_pos (by simp)]
  rw [show ('[' :: n ++ [']']).tail = n ++ [']'] from rfl,
    extractName_append (fun c hc => (hn c hc).2)]

theorem classifyLine_pair {k v : List Char} (hk : ∀ c ∈ k, c ≠ '=')
    (hhead : (k ++ '=' :: v).headD ' ' ≠ '[') :
    classifyLine (k ++ '=' :: v) = LineTok.pairLine k v := by
  have hne : trimChars (k ++ '=' :: v) ≠ [] :=
    trimChars_ne_nil (List.mem_append_right k (List.mem_cons_self _ _)) (by decide)
  rw [classifyLine, if_neg hne, if_neg hhead, splitFirstEq_append hk]

theorem splitCommaSpace_of_not_has : ∀ cs : List Char, hasCommaSpace cs = false →
    splitCommaSpace cs = [cs] := by
  intro cs
  induction cs using splitCommaSpace.induct with
  | case1 => intro _; rfl
  | case2 c => intro _; rfl
  | case3 c d rest hcd ih =>
    intro h
    rw [hasCommaSpace] at h
    simp only [Bool.or_eq_false_iff, Bool.and_eq_false_iff, beq_eq_false_iff_ne] at h
    rcases h.1 with hc | hc
    · exact absurd hcd.1 hc
    · exact absurd hcd.2 hc
  | case4 c d rest hcd ih =>
    intro h
    rw [hasCommaSpace] at h
    simp only [Bool.or_eq_false_iff] at h
    rw [splitCommaSpace, if_neg hcd, ih h.2]
    rfl

theorem insertPair_of_not_mem {m : List (String × String)} {k : String}
    (h : k ∉ m.map Prod.fst) (v : String) : insertPair m k v = m ++ [(k, v)] := by
  induction m with
  | nil => rfl
  | cons kv rest ih =>
    obtain ⟨k0, v0⟩ := kv
    simp only [List.map_cons, List.mem_cons, not_or] at h
    rw [insertPair, if_neg (fun he => h.1 he.symm), ih h.2, List.cons_append]

theorem touchSection_of_not_mem {d : Document} {sec : String}
    (h : sec ∉ d.map Prod.fst) : touchSection d sec = d ++ [(sec, [])] := by
  induction d with
  | nil => rfl
  | cons sm rest ih =>
    obtain ⟨s, m⟩ := sm
    simp only [List.map_cons, List.mem_cons, not_or] at h
    rw [touchSection, if_neg (fun he => h.1 he.symm), ih h.2, List.cons_append]

theorem insertPairIntoDoc_append {d0 : Document} {sec : String}
    (h : sec ∉ d0.map Prod.fst) (m : List (String × String)) (k v : String) :
    insertPairIntoDoc (d0 ++ [(sec, m)]) sec k v = d0 ++ [(sec, insertPair m k v)] := by
  induction d0 with
  | nil => rw [List.nil_append, insertPairIntoDoc, if_pos rfl]; rfl
  | cons sm rest ih =>
    obtain ⟨s0, m0⟩ := sm
    simp only [List.map_cons, List.mem_cons, not_or] at h
    rw [List.cons_append, insertPairIntoDoc, if_neg (fun he => h.1 he.symm), ih h.2,
      List.cons_append]

theorem pairLines_single {v : String} (hv : wfValue v) (k : String) :
    pairLines k v = [k.data ++ '=' :: v.data] := by
  rw [pairLines, splitCommaSpace_of_not_has v.data hv.2.2]
  rfl

theorem pairLine_headD {k v : List Char} (hk : k.headD '=' ≠ '[') :
    (k ++ '=' :: v).headD ' ' ≠ '[' := by
  cases k with
  | nil =>
    intro h
    rw [List.nil_append, List.headD_cons] at h
    exact absurd h (by decide)
  | cons c k => simpa using hk

theorem parseLines_nil (doc : Document) (cur : Option String) :
    parseLines [] doc cur = Except.ok doc := rfl

theorem parseLines_cons_eq (line : List Char) (rest : List (List Char)) (doc : Document)
    (cur : Option String) :
    parseLines (line :: rest) doc cur =
      match classifyLine line with
      | LineTok.blankLine => parseLines rest doc cur
      | LineTok.headerLine n =>
        parseLines rest (touchSection doc (String.mk n)) (some (String.mk n))
      | LineTok.badHeaderLine => Except.error "Error de sintaxis: cabecera de seccion no valida"
      | LineTok.pairLine k v =>
        match cur with
        | some sec =>
          parseLines rest (insertPairIntoDoc doc sec (String.mk k) (String.mk (trimChars v))) cur
        | none => parseLines rest doc cur
      | LineTok.plainLine =>
        match cur with
        | some _ => Except.error "Error de sintaxis: se esperaba clave=valor"
        | none => parseLines rest doc cur := rfl

theorem parseLines_cons_blank {line : List Char} (h : classifyLine line = LineTok.blankLine)
    (rest : List (List Char)) (doc : Document) (cur : Option String) :
    parseLines (line :: rest) doc cur = parseLines rest doc cur := by
  rw [parseLines_cons_eq, h]

theorem parseLines_cons_header {line n : List Char}
    (h : classifyLine line = LineTok.headerLine n)
    (rest : List (List Char)) (doc : Document) (cur : Option String) :
    parseLines (line :: rest) doc cur
      = parseLines rest (touchSection doc (String.mk n)) (some (String.mk n)) := by
  rw [parseLines_cons_eq, h]

theorem parseLines_cons_pair {line k v : List Char}
    (h : classifyLine line = LineTok.pairLine k v)
    (rest : List (List Char)) (doc : Document) (sec : String) :
    parseLines (line :: rest) doc (some sec)
      = parseLines rest (insertPairIntoDoc doc sec (String.mk k) (String.mk (trimChars v)))
          (some sec) := by
  rw [parseLines_cons_eq, h]

theorem parseLines_pairs (ps : List (String × String)) :
    ∀ (acc : List (String × String)) (rest : List (List Char)) (d0 : Document) (sec : String),
    sec ∉ d0.map Prod.fst →
    (∀ kv ∈ ps, kv.1 ∉ acc.map Prod.fst) →
    (ps.map Prod.fst).Nodup →
    (∀ kv ∈ ps, wfKeyName kv.1 ∧ wfValue kv.2) →
    parseLines ((ps.map (fun kv => pairLines kv.1 kv.2)).flatten ++ rest)
        (d0 ++ [(sec, acc)]) (some sec)
      = parseLines rest (d0 ++ [(sec, acc ++ ps)]) (some sec) := by
  induction ps with
  | nil => intro acc rest d0 sec _ _ _ _; simp
  | cons kv ps ih =>
    intro acc rest d0 sec hsec hfresh hnodup hwf
    obtain ⟨k, v⟩ := kv
    have hwf0 := hwf (k, v) (List.mem_cons_self _ _)
    rw [List.map_cons, List.flatten_cons, pairLines_single hwf0.2 k, List.append_assoc,
      List.singleton_append]
    rw [parseLines_cons_pair (classifyLine_pair (fun c hc => (hwf0.1.1 c hc).2)
      (pairLine_headD hwf0.1.2))]
    rw [mk_data k, hwf0.2.2.1, mk_data v]
    rw [insertPairIntoDoc_append hsec,
      insertPair_of_not_mem (hfresh (k, v) (List.mem_cons_self _ _)) v]
    simp only [List.map_cons, List.nodup_cons] at hnodup
    have hih := ih (acc ++ [(k, v)]) rest d0 sec hsec
      (by
        intro kv2 h2
        have h3 := hfresh kv2 (List.mem_cons_of_mem _ h2)
        have h4 : kv2.1 ≠ k := by
          intro he
          exact hnodup.1 (he ▸ List.mem_map_of_mem Prod.fst h2)
        simp only [List.map_append, List.map_cons, List.map_nil, List.mem_append,
          List.mem_singleton, not_or]
        exact ⟨h3, h4⟩)
      hnodup.2
      (fun kv2 h2 => hwf kv2 (List.mem_cons_of_mem _ h2))
    rw [hih, List.append_assoc, List.singleton_append]

theorem parseLines_sections (d1 : Document) :
    ∀ (d0 : Document) (cur : Option String),
    (∀ sm ∈ d1, sm.1 ∉ d0.map Prod.fst) →
    (d1.map Prod.fst).Nodup →
    (∀ sm ∈ d1, wfSectionName sm.1 ∧ (sm.2.map Prod.fst).Nodup ∧
      ∀ kv ∈ sm.2, wfKeyName kv.1 ∧ wfValue kv.2) →
    parseLines (docLines d1 ++ [[]]) d0 cur = Except.ok (d0 ++ d1) := by
  induction d1 with
  | nil =>
    intro d0 cur _ _ _
    rw [docLines, List.map_nil, List.flatten_nil, List.nil_append,
      parseLines_cons_blank classifyLine_nil, parseLines_nil, List.append_nil]
  | cons sm d1 ih =>
    intro d0 cur hfresh hnodup hwf
    obtain ⟨sec, m⟩ := sm
    have hwf0 := hwf (sec, m) (List.mem_cons_self _ _)
    rw [docLines, List.map_cons, List.flatten_cons, sectionLines, List.cons_append,
      List.cons_append]
    rw [parseLines_cons_header (classifyLine_header hwf0.1), mk_data sec,
      touchSection_of_not_mem (hfresh (sec, m) (List.mem_cons_self _ _))]
    rw [List.append_assoc, List.append_assoc, List.singleton_append]
    simp only [List.map_cons, List.nodup_cons] at hnodup
    rw [parseLines_pairs m [] ([] :: ((d1.map (fun sm2 => sectionLines sm2.1 sm2.2)).flatten
        ++ [[]])) d0 sec (hfresh (sec, m) (List.mem_cons_self _ _)) (by simp) hwf0.2.1
        hwf0.2.2]
    rw [List.nil_append, parseLines_cons_blank classifyLine_nil]
    have hih := ih (d0 ++ [(sec, m)]) (some sec)
      (by
        intro sm2 h2
        have h3 := hfresh sm2 (List.mem_cons_of_mem _ h2)
        have h4 : sm2.1 ≠ sec := by
          intro he
          exact hnodup.1 (he ▸ List.mem_map_of_mem Prod.fst h2)
        simp only [List.map_append, List.map_cons, List.map_nil, List.mem_append,
          List.mem_singleton, not_or]
        exact ⟨h3, h4⟩)
      hnodup.2
      (fun sm2 h2 => hwf sm2 (List.mem_cons_of_mem _ h2))
    rw [docLines] at hih
    rw [hih, List.append_assoc, List.singleton_append]

theorem sectionLines_no_newline {sec : String} {m : List (String × String)}
    (hsec : wfSectionName sec)
    (hm : ∀ kv ∈ m, wfKeyName kv.1 ∧ wfValue kv.2) :
    ∀ l ∈ sectionLines sec m, ∀ c ∈ l, c ≠ '\n' := by
  intro l hl c hc
  rw [sectionLines] at hl
  rcases List.mem_cons.mp hl with h | h
  · subst h
    rcases List.mem_cons.mp hc with h2 | h2
    · subst h2; decide
    · rcases List.mem_append.mp h2 with h3 | h3
      · exact (hsec c h3).1
      · rw [List.mem_singleton] at h3; subst h3; decide
  · rcases List.mem_append.mp h with h2 | h2
    · obtain ⟨ll, hll, hmem⟩ := List.mem_flatten.mp h2
      obtain ⟨kv, hkv, rfl⟩ := List.mem_map.mp hll
      rw [pairLines_single (hm kv hkv).2] at hmem
      rw [List.mem_singleton] at hmem
      subst hmem
      rcases List.mem_append.mp hc with h3 | h3
      · exact ((hm kv hkv).1.1 c h3).1
      · rcases List.mem_cons.mp h3 with h4 | h4
        · subst h4; decide
        · exact ((hm kv hkv).2.1 c h4)
    · rw [List.mem_singleton] at h2
      subst h2
      cases hc

theorem docLines_no_newline {d : Document}
    (hwf : ∀ sm ∈ d, wfSectionName sm.1 ∧ (sm.2.map Prod.fst).Nodup ∧
      ∀ kv ∈ sm.2, wfKeyName kv.1 ∧ wfValue kv.2) :
    ∀ l ∈ docLines d, ∀ c ∈ l, c ≠ '\n' := by
  intro l hl
  rw [docLines] at hl
  obtain ⟨ll, hll, hmem⟩ := List.mem_flatten.mp hl
  obtain ⟨sm, hsm, rfl⟩ := List.mem_map.mp hll
  exact sectionLines_no_newline (hwf sm hsm).1 (hwf sm hsm).2.2 l hmem

theorem serialize_ne_empty (sm : String × List (String × String)) (rest : Document) :
    serialize_quadlet (sm :: rest) ≠ "" := by
  apply ne_empty_of_data_ne_nil
  show ((docLines (sm :: rest)).map (fun l => l ++ ['\n'])).flatten ≠ []
  rw [docLines, List.map_cons, List.flatten_cons, sectionLines]
  simp

theorem append_ne_empty {a : String} (h : a ≠ "") (b : String) : a ++ b ≠ "" := by
  intro he
  apply h
  have hd := congrArg String.data he
  rw [String.data_append a b] at hd
  have hnil : a.data = [] := (List.append_eq_nil.mp (by simpa using hd)).1
  calc a = String.mk a.data := (mk_data a).symm
  _ = String.mk [] := by rw [hnil]

theorem intercalate_go_foldl (s : String) (vs : List String) :
    ∀ acc : String, String.intercalate.go acc s vs
      = List.foldl (fun a v => a ++ s ++ v) acc vs := by
  induction vs with
  | nil => intro acc; rfl
  | cons v vs ih =>
    intro acc
    have e : String.intercalate.go acc s (v :: vs)
        = String.intercalate.go (acc ++ s ++ v) s vs := rfl
    rw [e, ih (acc ++ s ++ v), List.foldl_cons]

theorem intercalate_cons (s v : String) (vs : List String) :
    String.intercalate s (v :: vs) = List.foldl (fun a x => a ++ s ++ x) v vs := by
  have e : String.intercalate s (v :: vs) = String.intercalate.go v s vs := rfl
  rw [e, intercalate_go_foldl]

theorem parseLines_accum (k : String) (hk : wfKeyName k) (sec : String) :
    ∀ (vs : List String) (acc : String) (rest : List (List Char)),
    acc ≠ "" →
    (∀ v ∈ vs, (∀ c ∈ v.data, c ≠ '\n') ∧ trimChars v.data = v.data) →
    parseLines ((vs.map (fun v => k.data ++ '=' :: v.data)) ++ rest)
        [(sec, [(k, acc)])] (some sec)
      = parseLines rest
          [(sec, [(k, List.foldl (fun a v => a ++ ", " ++ v) acc vs)])] (some sec) := by
  intro vs
  induction vs with
  | nil => intro acc rest _ _; simp
  | cons v vs ih =>
    intro acc rest hacc hv
    have hv0 := hv v (List.mem_cons_self _ _)
    rw [List.map_cons, List.cons_append]
    rw [parseLines_cons_pair (classifyLine_pair (fun c hc => (hk.1 c hc).2)
      (pairLine_headD hk.2))]
    rw [mk_data k, hv0.2, mk_data v]
    rw [show insertPairIntoDoc [(sec, [(k, acc)])] sec k v
        = [(sec, insertPair [(k, acc)] k v)] from by rw [insertPairIntoDoc, if_pos rfl]]
    rw [show insertPair [(k, acc)] k v = [(k, acc ++ ", " ++ v)] from by
      rw [insertPair, if_pos rfl, if_neg hacc]]
    rw [ih (acc ++ ", " ++ v) rest (append_ne_empty (append_ne_empty hacc ", ") v)
      (fun v2 h2 => hv v2 (List.mem_cons_of_mem _ h2)), List.foldl_cons]

/-- C1 counterexample: the round-trip claim as stated fails for the document
mapping section S, key K, to the value " a" -- the value contains no
comma-space separator, yet parsing the serialization trims the value to
"a", so the re-parsed document does not map K to the same value. -/
theorem c1_round_trip_counterexample :
    parse_quadlet (serialize_quadlet [("S", [("K", " a")])])
      = Except.ok [("S", [("K", "a")])] ∧ ("a" : String) ≠ " a" := by
  exact ⟨rfl, by decide⟩

/-- C1 (amended): for every well-formed document -- non-empty, with unique
section names, unique keys per section, section names free of newlines and
brackets, keys free of newlines and equals signs and not beginning with an
opening bracket, and values free of newlines and of the comma-space
separator and invariant under trimming -- `parse_quadlet` applied to
`serialize_quadlet` of the document succeeds and returns exactly the same
sections, keys and values. -/
theorem c1_round_trip (d : Document) (h : wfDocument d) :
    parse_quadlet (serialize_quadlet d) = Except.ok d := by
  obtain ⟨hne, hnodup, hwf⟩ := h
  cases d with
  | nil => exact absurd rfl hne
  | cons sm rest =>
    rw [parse_quadlet, if_neg (serialize_ne_empty sm rest)]
    have hdata : (serialize_quadlet (sm :: rest)).data
        = ((docLines (sm :: rest)).map (fun l => l ++ ['\n'])).flatten := rfl
    rw [hdata, splitLines_join _ (docLines_no_newline hwf)]
    have hmain := parseLines_sections (sm :: rest) [] none (by simp) hnodup hwf
    simpa using hmain

/-- Witness for C1 at a concrete well-formed document. -/
theorem c1_round_trip_witness :
    wfDocument [("Container", [("Image", "nginx"), ("Volume", "a:b")])] ∧
    parse_quadlet (serialize_quadlet [("Container", [("Image", "nginx"), ("Volume", "a:b")])])
      = Except.ok [("Container", [("Image", "nginx"), ("Volume", "a:b")])] :=
  ⟨by decide, c1_round_trip [("Container", [("Image", "nginx"), ("Volume", "a:b")])] (by decide)⟩

/-- C2 counterexample: when the first occurrence of a repeated key is empty,
the occurrences are not joined by the comma-space separator: parsing
yields the value "a", not the joined value ", a" the claim prescribes for
the occurrences "" and "a". -/
theorem c2_duplicate_key_counterexample :
    parse_quadlet "[S]\nK=\nK=a\n" = Except.ok [("S", [("K", "a")])] ∧
    ("a" : String) ≠ ", a" := by
  exact ⟨rfl, by decide⟩

/-- C2 (amended): within one section, the occurrences of a repeated key are
merged into a single value joined by the comma-space separator in order of
appearance, provided the first occurrence is non-empty (while the
accumulated value is empty the separator is omitted, see C10); in
particular parsing "[Container]\nVolume=a:b\nVolume=c:d\n" yields
Container.Volume = "a:b, c:d". -/
theorem c2_duplicate_key_merge (sec k : String) (vs : List String)
    (hsec : wfSectionName sec) (hk : wfKeyName k)
    (hvs : ∀ v ∈ vs, (∀ c ∈ v.data, c ≠ '\n') ∧ trimChars v.data = v.data)
    (hne : vs ≠ []) (hfirst : vs.headD "" ≠ "") :
    parse_quadlet (repeatedKeyText sec k vs)
      = Except.ok [(sec, [(k, String.intercalate ", " vs)])] := by
  cases vs with
  | nil => exact absurd rfl hne
  | cons v vs =>
    have hneq : repeatedKeyText sec k (v :: vs) ≠ "" := by
      apply ne_empty_of_data_ne_nil
      show ((((('[' :: sec.data ++ [']']) :: (v :: vs).map (fun v2 => k.data ++ '=' :: v2.data))).map
        (fun l => l ++ ['\n'])).flatten) ≠ []
      simp
    rw [parse_quadlet, if_neg hneq]
    have hdata : (repeatedKeyText sec k (v :: vs)).data
        = (((('[' :: sec.data ++ [']']) :: (v :: vs).map (fun v2 => k.data ++ '=' :: v2.data)).map
          (fun l => l ++ ['\n'])).flatten) := rfl
    rw [hdata]
    rw [splitLines_join _ (by
      intro l hl c hc
      rcases List.mem_cons.mp hl with h1 | h1
      · subst h1
        rcases List.mem_cons.mp hc with h2 | h2
        · subst h2; decide
        · rcases List.mem_append.mp h2 with h3 | h3
          · exact (hsec c h3).1
          · rw [List.mem_singleton] at h3; subst h3; decide
      · obtain ⟨v2, hv2, rfl⟩ := List.mem_map.mp h1
        rcases List.mem_append.mp hc with h3 | h3
        · exact (hk.1 c h3).1
        · rcases List.mem_cons.mp h3 with h4 | h4
          · subst h4; decide
          · exact (hvs v2 hv2).1 c h4)]
    rw [List.cons_append, parseLines_cons_header (classifyLine_header hsec), mk_data sec]
    rw [show touchSection ([] : Document) sec = [(sec, [])] from rfl]
    rw [List.map_cons, List.cons_append]
    have hv0 := hvs v (List.mem_cons_self _ _)
    rw [parseLines_cons_pair (classifyLine_pair (fun c hc => (hk.1 c hc).2)
      (pairLine_headD hk.2))]
    rw [mk_data k, hv0.2, mk_data v]
    rw [show insertPairIntoDoc [(sec, [])] sec k v = [(sec, [(k, v)])] from by
      rw [insertPairIntoDoc, if_pos rfl]; rfl]
    have hfirst2 : v ≠ "" := by simpa using hfirst
    rw [parseLines_accum k hk sec vs v [[]] hfirst2
      (fun v2 h2 => hvs v2 (List.mem_cons_of_mem _ h2))]
    rw [parseLines_cons_blank classifyLine_nil, parseLines_nil, intercalate_cons]

/-- Witness for C2 at the concrete input of the claim. -/
theorem c2_duplicate_key_merge_witness :
    parse_quadlet (repeatedKeyText "Container" "Volume" ["a:b", "c:d"])
      = Except.ok [("Container", [("Volume", "a:b, c:d")])] := by
  have h := c2_duplicate_key_merge "Container" "Volume" ["a:b", "c:d"]
    (by decide) (by decide) (by decide) (by decide) (by decide)
  rw [h]
  rfl

/-- C10: when the accumulated value of a repeated key is still empty, the new
occurrence is appended without the comma-space separator; the separator is
inserted only when the accumulated value is non-empty.  Concretely,
parsing "[S]\nK=\nK=a\n" maps K to "a" (not ", a"), while parsing
"[S]\nK=x\nK=a\n" maps K to "x, a". -/
theorem c10_empty_accumulator_no_separator :
    (∀ (k v : String) (rest : List (String × String)),
      insertPair ((k, "") :: rest) k v = (k, v) :: rest) ∧
    (∀ (k v old : String) (rest : List (String × String)), old ≠ "" →
      insertPair ((k, old) :: rest) k v = (k, old ++ ", " ++ v) :: rest) ∧
    parse_quadlet "[S]\nK=\nK=a\n" = Except.ok [("S", [("K", "a")])] ∧
    parse_quadlet "[S]\nK=x\nK=a\n" = Except.ok [("S", [("K", "x, a")])] := by
  refine ⟨?_, ?_, rfl, rfl⟩
  · intro k v rest
    rw [insertPair, if_pos rfl, if_pos rfl]
  · intro k v old rest hold
    rw [insertPair, if_pos rfl, if_neg hold]

/-- Witness for C10 discharging the non-empty hypothesis of its second
conjunct at a concrete accumulated value. -/
theorem c10_empty_accumulator_no_separator_witness :
    insertPair [("K", "x")] "K" "a" = [("K", "x, a")] :=
  c10_empty_accumulator_no_separator.2.1 "K" "a" "x" [] (by decide)

/-- C3: the validator is a pure total function evaluating all three rules
without short-circuiting: its findings are exactly -- in order -- the
missing-Container rule (field Global), the missing-Image rule (field
Container.Image) and the space-in-ContainerName rule (field
Container.ContainerName), as the general equation states; the concrete
conjuncts instantiate the claim's four scenarios, including the
two-findings case and the zero-findings case. -/
theorem c3_validator_rules :
    (∀ d : Document,
      (SemanticValidator.validate d).map ValidationError.field =
        match List.lookup "Container" d with
        | none => ["Global"]
        | some sec =>
          (if (List.lookup "Image" sec).isSome then [] else ["Container.Image"]) ++
          (match List.lookup "ContainerName" sec with
           | some nm =>
             if nm.data.any (fun c => c = ' ') then ["Container.ContainerName"] else []
           | none => [])) ∧
    (SemanticValidator.validate []).map ValidationError.field = ["Global"] ∧
    (SemanticValidator.validate [("Container", [])]).map ValidationError.field
      = ["Container.Image"] ∧
    (SemanticValidator.validate [("Container", [("ContainerName", "my app")])]).map
      ValidationError.field = ["Container.Image", "Container.ContainerName"] ∧
    SemanticValidator.validate [("Container", [("Image", "x"), ("ContainerName", "myapp")])]
      = [] := by
  refine ⟨?_, rfl, rfl, rfl, rfl⟩
  intro d
  cases hc : List.lookup "Container" d with
  | none => simp [SemanticValidator.validate, hc]
  | some sec =>
    cases hn : List.lookup "ContainerName" sec with
    | none =>
      by_cases hi : (List.lookup "Image" sec).isSome <;>
        simp [SemanticValidator.validate, hc, hn, hi]
    | some nm =>
      by_cases hi : (List.lookup "Image" sec).isSome <;>
        by_cases hs : nm.data.any (fun c => c = ' ') <;>
          simp [SemanticValidator.validate, hc, hn, hi, hs]

theorem get_status_eq (ε : Type) (query : String → Except ε String) (name : String) :
    get_status query name =
      match query (name ++ ".service") with
      | Except.ok state => mapActiveState state
      | Except.error _ => QuadletStatus.Inactive := rfl

theorem get_status_normal (ε : Type) (query : String → Except ε String) (name : String) :
    get_status query name ∈ [QuadletStatus.Active, QuadletStatus.Inactive,
      QuadletStatus.Failed, QuadletStatus.Unknown] := by
  rw [get_status_eq]
  cases hq : query (name ++ ".service") with
  | error e => simp
  | ok s =>
    show mapActiveState s ∈ _
    rw [mapActiveState]
    split_ifs <;> simp

/-- C4: the reconciler maps the raw activation-state strings active,
reloading and activating to Active; inactive and deactivating to
Inactive; failed to Failed; and every other string (such as bogus-state)
to Unknown; and a successful provider reply is mapped by exactly this
table inside `get_status`. -/
theorem c4_status_string_mapping :
    (∀ s : String, mapActiveState s =
      (if s ∈ (["active", "reloading", "activating"] : List String) then QuadletStatus.Active
       else if s ∈ (["inactive", "deactivating"] : List String) then QuadletStatus.Inactive
       else if s = "failed" then QuadletStatus.Failed
       else QuadletStatus.Unknown)) ∧
    mapActiveState "active" = QuadletStatus.Active ∧
    mapActiveState "reloading" = QuadletStatus.Active ∧
    mapActiveState "activating" = QuadletStatus.Active ∧
    mapActiveState "inactive" = QuadletStatus.Inactive ∧
    mapActiveState "deactivating" = QuadletStatus.Inactive ∧
    mapActiveState "failed" = QuadletStatus.Failed ∧
    mapActiveState "bogus-state" = QuadletStatus.Unknown ∧
    (∀ (ε : Type) (name state : String),
      get_status (fun _ => (Except.ok state : Except ε String)) name = mapActiveState state) := by
  refine ⟨?_, rfl, rfl, rfl, rfl, rfl, rfl, rfl, fun ε name state => rfl⟩
  intro s
  simp only [mapActiveState, List.mem_cons, List.not_mem_nil, or_false]

/-- C5: `get_status` consults the provider exactly for the unit identifier
`name ++ ".service"` (its result depends only on the provider's answer at
that identifier), maps every provider failure to Inactive instead of
propagating it, and always returns one of the four statuses Active,
Inactive, Failed, Unknown -- never an error. -/
theorem c5_error_swallowing (ε : Type) (query : String → Except ε String) (name : String) :
    (∀ e : ε, query (name ++ ".service") = Except.error e →
      get_status query name = QuadletStatus.Inactive) ∧
    (∀ query2 : String → Except ε String,
      query2 (name ++ ".service") = query (name ++ ".service") →
      get_status query2 name = get_status query name) ∧
    get_status query name ∈ [QuadletStatus.Active, QuadletStatus.Inactive,
      QuadletStatus.Failed, QuadletStatus.Unknown] := by
  refine ⟨?_, ?_, get_status_normal ε query name⟩
  · intro e he
    rw [get_status_eq, he]
  · intro q2 h2
    rw [get_status_eq, get_status_eq, h2]

/-- Witness for C5: a provider that always fails yields Inactive. -/
theorem c5_error_swallowing_witness :
    get_status (fun _ => (Except.error () : Except Unit String)) "web"
      = QuadletStatus.Inactive :=
  (c5_error_swallowing Unit (fun _ => Except.error ()) "web").1 () rfl

theorem from_extension_undotted_none :
    ∀ e ∈ quadletExtensions, QuadletType.from_extension e = none := by decide

theorem discoverScan_cons_eq (ε : Type) (query : String → Except ε String)
    (f e : String) (rest : List String) :
    discoverScan query f (e :: rest) =
      if ("." ++ e).data.isSuffixOf f.data then
        match QuadletType.from_extension e with
        | some qt =>
          some { name := String.mk (stripSuffixAll ("." ++ e).data f.data),
                 kind := qt,
                 status := some (if e = "container" then
                   get_status query (String.mk (stripSuffixAll ("." ++ e).data f.data))
                   else QuadletStatus.Unknown) }
        | none => discoverScan query f rest
      else discoverScan query f rest := rfl

theorem discoverScan_none (ε : Type) (query : String → Except ε String) (f : String) :
    ∀ exts : List String, (∀ e ∈ exts, QuadletType.from_extension e = none) →
    discoverScan query f exts = none := by
  intro exts
  induction exts with
  | nil => intro _; rfl
  | cons e rest ih =>
    intro h
    rw [discoverScan_cons_eq, h e (List.mem_cons_self _ _)]
    show (if ("." ++ e).data.isSuffixOf f.data then discoverScan query f rest
      else discoverScan query f rest) = none
    rw [ite_self]
    exact ih (fun x hx => h x (List.mem_cons_of_mem _ hx))

theorem discover_quadlets_always_empty (ε : Type) (query : String → Except ε String)
    (files : List String) : discover_quadlets query files = [] := by
  induction files with
  | nil => rfl
  | cons f fs ih =>
    have hnone : discoverScan query f quadletExtensions = none :=
      discoverScan_none ε query f quadletExtensions from_extension_undotted_none
    show List.filterMap (fun x => discoverScan query x quadletExtensions) (f :: fs) = []
    rw [@List.filterMap_cons_none _ _ (fun x => discoverScan query x quadletExtensions) f fs
      hnone]
    exact ih

/-- C6: evaluation at the directory of the claim -- for every provider
oracle, bulk discovery over the files web.container, data.volume and
notes.txt returns no artifact at all (not the two artifacts the claim
describes), because `discover_quadlets` passes the extension token without
its leading dot to `QuadletType::from_extension`, whose match arms all
expect the dot. -/
theorem c6_discovery_returns_nothing (ε : Type) (query : String → Except ε String) :
    discover_quadlets query ["web.container", "data.volume", "notes.txt"] = [] := rfl

/-- C8: divergence evaluation -- for every provider oracle and every
directory, bulk discovery produces no artifact and never consults the
provider (the result is the same for any two oracles), so in particular no
Container artifact has its status obtained by a provider query and no
artifact of any other kind is assigned Unknown. -/
theorem c8_no_status_queries (ε : Type) (q1 q2 : String → Except ε String)
    (files : List String) :
    discover_quadlets q1 files = [] ∧
    discover_quadlets q1 files = discover_quadlets q2 files := by
  refine ⟨discover_quadlets_always_empty ε q1 files, ?_⟩
  rw [discover_quadlets_always_empty ε q1 files, discover_quadlets_always_empty ε q2 files]

/-- C9: no value returned by `get_status` and no status assigned during bulk
discovery is ever Activating or Deactivating, although `QuadletStatus`
declares both variants. -/
theorem c9_no_transitional_status (ε : Type) (query : String → Except ε String)
    (name : String) (files : List String) :
    get_status query name ≠ QuadletStatus.Activating ∧
    get_status query name ≠ QuadletStatus.Deactivating ∧
    ((discover_quadlets query files).map QuadletInfo.status).all
      (fun st => decide (st ≠ some QuadletStatus.Activating ∧
        st ≠ some QuadletStatus.Deactivating)) = true := by
  have h := get_status_normal ε query name
  simp only [List.mem_cons, List.not_mem_nil, or_false] at h
  refine ⟨?_, ?_, ?_⟩
  · rcases h with h | h | h | h <;> rw [h] <;> decide
  · rcases h with h | h | h | h <;> rw [h] <;> decide
  · rw [discover_quadlets_always_empty]
    rfl

/-- C7 counterexample: `from_extension` applied to the undotted extension
token container returns no match, although the claim says it returns the
Container variant; the extension bound to Container carries a leading
dot. -/
theorem c7_registry_counterexample :
    QuadletType.from_extension "container" = none ∧
    QuadletType.Container.extension = ".container" := ⟨rfl, rfl⟩

/-- C7 (amended): each of the six QuadletType variants is bound to exactly
one dotted lowercase extension (".container", ".network", ".volume",
".kube", ".pod", ".image"); the mapping is total and bijective --
`from_extension` of a variant's extension returns that variant, distinct
variants have distinct extensions -- and `from_extension` returns none
(no default) for every string outside the six dotted extensions, in
particular for "bogus" and for the undotted tokens. -/
theorem c7_registry_bijection :
    (∀ t : QuadletType, QuadletType.from_extension t.extension = some t) ∧
    (∀ t u : QuadletType, t.extension = u.extension → t = u) ∧
    (∀ s : String,
      s ∉ ([".container", ".network", ".volume", ".kube", ".pod", ".image"] : List String) →
      QuadletType.from_extension s = none) ∧
    QuadletType.from_extension "bogus" = none := by
  refine ⟨?_, ?_, ?_, rfl⟩
  · intro t; cases t <;> rfl
  · intro t u h
    cases t <;> cases u <;> first | rfl | exact absurd h (by decide)
  · intro s hs
    simp only [List.mem_cons, List.not_mem_nil, or_false, not_or] at hs
    obtain ⟨h1, h2, h3, h4, h5, h6⟩ := hs
    rw [QuadletType.from_extension, if_neg h1, if_neg h2, if_neg h5, if_neg h6,
      if_neg h3, if_neg h4]

/-- Witness for C7 discharging each hypothesis at concrete inputs. -/
theorem c7_registry_bijection_witness :
    QuadletType.from_extension "xyz" = none ∧
    QuadletType.from_extension (QuadletType.extension QuadletType.Volume)
      = some QuadletType.Volume ∧
    QuadletType.Pod = QuadletType.Pod :=
  ⟨c7_registry_bijection.2.2.1 "xyz" (by decide),
   c7_registry_bijection.1 QuadletType.Volume,
   c7_registry_bijection.2.1 QuadletType.Pod QuadletType.Pod rfl⟩

end Quadly
